import Mathlib

/-!
Verification of the slim-node-postgres named-parameter preparation layer.

The development shallowly embeds the TypeScript sources:
- `SlimNodePostgres.prepare` / `PostgresPreparedStatement.prepare`: the
  while-loop that repeatedly matches the regex `@([A-Za-z_]+)` against the
  current SQL string and replaces the first occurrence of the matched token
  with a positional placeholder `$1`, `$2`, ...
- `SlimNodePostgres.insert` / `escapeIdentifier`: INSERT statement assembly.
- `SlimNodePostgres` constructor / `connect` / `close` / `hasOpenPool`:
  the pool lifecycle state machine.
- `ConnectionStringParserStrategy.getParserStrategy` and the
  `SlimNodePostgresPool` constructor: connection-string parser dispatch.

SQL strings are modelled as `List Char`; JavaScript objects used as named
parameter maps are modelled as association lists with first-match lookup.
-/

/-- Character class of the token identifier regex `[A-Za-z_]`, as in the
source pattern `@([A-Za-z_]+)`. -/
def isIdentChar (c : Char) : Bool :=
  (('A' ≤ c) && (c ≤ 'Z')) || (('a' ≤ c) && (c ≤ 'z')) || (c = '_')

/-- Whether the first character of `l` is an identifier character; if `l`
is empty, fall back to `flag` (which describes the character that follows
`l` in the surrounding context). -/
def identHeadF (l : List Char) (flag : Bool) : Bool :=
  match l with
  | [] => flag
  | c :: _ => isIdentChar c

/-- Whether `l` starts with an identifier character (nothing follows `l`). -/
def identHead (l : List Char) : Bool :=
  identHeadF l false

/-- `noTok l flag = true` iff `l` contains no start of a `@identifier`
token, where `flag` tells whether the character immediately after `l` in
the surrounding context is an identifier character. -/
def noTok (l : List Char) (flag : Bool) : Bool :=
  match l with
  | [] => true
  | c :: rest => (!(c = '@' && identHeadF rest flag)) && noTok rest flag

/-- First match of the regex `@([A-Za-z_]+)` in `l`, as
`(prefix, identifier, suffix)` with `l = prefix ++ '@' :: identifier ++ suffix`,
the identifier being the maximal nonempty run of `[A-Za-z_]` characters
after the leftmost `@` that is followed by at least one such character. -/
def findMatch (l : List Char) : Option (List Char × List Char × List Char) :=
  match l with
  | [] => none
  | c :: rest =>
    if c = '@' && identHeadF rest false then
      some ([], rest.takeWhile isIdentChar, rest.dropWhile isIdentChar)
    else
      (findMatch rest).map fun pr => (c :: pr.1, pr.2.1, pr.2.2)

/-- Boolean prefix test on character lists. -/
def isPre (needle l : List Char) : Bool :=
  match needle, l with
  | [], _ => true
  | _ :: _, [] => false
  | a :: as, b :: bs => (a = b) && isPre as bs

/-- JavaScript `String.prototype.replace` with a string pattern: replace the
first occurrence of `needle` in `l` by `repl` (identity if absent). -/
def replaceFirst (needle repl l : List Char) : List Char :=
  match l with
  | [] => []
  | c :: rest =>
    if isPre needle (c :: rest) then repl ++ (c :: rest).drop needle.length
    else c :: replaceFirst needle repl rest

/-- Decimal digit character (used for rendering the positional counter). -/
def digitChar (d : Nat) : Char :=
  Char.ofNat (48 + d % 10)

/-- Numeric value of a decimal digit character. -/
def digitVal (c : Char) : Nat :=
  c.toNat - 48

/-- Decimal digits of `n`, most significant first; `fuel` bounds the
recursion and any `fuel > n` is sufficient. -/
def decCharsAux (fuel n : Nat) : List Char :=
  match fuel with
  | 0 => []
  | fuel + 1 =>
    if n < 10 then [digitChar n]
    else decCharsAux fuel (n / 10) ++ [digitChar (n % 10)]

/-- Decimal rendering of `n` as characters (the template literal
interpolation of a number in the source). -/
def decChars (n : Nat) : List Char :=
  decCharsAux (n + 1) n

/-- The positional placeholder written for counter value `i`: the source
builds the string interpolation of a dollar sign and the decimal index. -/
def placeholder (i : Nat) : List Char :=
  '$' :: decChars i

variable {V : Type}

/-- First-match association-list lookup, modelling JavaScript property
lookup `parameters[name]` on an object literal. -/
def assocLookup (ps : List (List Char × V)) (name : List Char) : Option V :=
  match ps with
  | [] => none
  | (k, v) :: rest => if k = name then some v else assocLookup rest name

/-- Lookup through the optional `parameters` argument: the source guard
`!parameters || !(baseVariableName in parameters)` makes an absent mapping
behave as one containing no key. -/
def lookupParam (params : Option (List (List Char × V))) (name : List Char) : Option V :=
  match params with
  | none => none
  | some ps => assocLookup ps name

/-- Error taxonomy of the library, by the spec's names. The source classes
are `Error('Missing prepared statement value for SQL variable ...')` /
`PreparedStatementError` (MissingParameterError),
`Error('Columns length must match values length.')` (ColumnValueMismatchError),
`PoolAlreadyExistsError` (PoolAlreadyOpenError) and
`ConnectionStringParseError`. -/
inductive SlimError where
  | missingParameter (token : List Char)
  | columnValueMismatch
  | poolAlreadyOpen
  | connectionStringParse
deriving DecidableEq

/-- The iterative rewrite loop shared verbatim by `SlimNodePostgres.prepare`
and `PostgresPreparedStatement.prepare` (with the default `'$'` marker):
while the regex `@([A-Za-z_]+)` matches the current SQL, fail if the
identifier has no entry in `parameters`, otherwise replace the first
occurrence of the matched token with `'$' ++ index`, push the value and
increment the 1-based counter. `fuel` bounds the number of iterations; the
wrappers pass a provably sufficient amount (the loop runs once per token
and a token consumes at least one `@`). -/
def prepareLoopF (params : Option (List (List Char × V))) :
    Nat → List Char → Nat → List V → Except SlimError (List Char × List V)
  | 0, hay, _, acc => .ok (hay, acc)
  | fuel + 1, hay, idx, acc =>
    match findMatch hay with
    | none => .ok (hay, acc)
    | some (_, ident, _) =>
      match lookupParam params ident with
      | none => .error (.missingParameter ('@' :: ident))
      | some v =>
        prepareLoopF params fuel (replaceFirst ('@' :: ident) (placeholder idx) hay)
          (idx + 1) (acc ++ [v])

/-- `SlimNodePostgres.prepare(sql, parameters?)`: runs the rewrite loop
starting at counter 1 with an empty value accumulator and returns the
rewritten SQL with the value array (possibly empty). -/
def SlimNodePostgres.prepare (sql : List Char) (parameters : Option (List (List Char × V))) :
    Except SlimError (List Char × List V) :=
  prepareLoopF parameters (sql.length + 1) sql 1 []

/-- `PostgresPreparedStatement.prepare()` with the default
`replaceValuesWith = '$'`: same loop, but the returned value list is
replaced by a null marker when empty
(`preparedValues.length > 0 ? preparedValues : null`). -/
def PostgresPreparedStatement.prepare (sqlString : List Char)
    (parameters : List (List Char × V)) :
    Except SlimError (List Char × Option (List V)) :=
  match prepareLoopF (some parameters) (sqlString.length + 1) sqlString 1 [] with
  | .error e => .error e
  | .ok (s, vs) => .ok (s, if vs.length > 0 then some vs else none)

/-- Decomposition of a template into its `@identifier` token occurrences, in
order: `Tokenization l segs tail` states that `l` consists of the literal
segments and identifiers of `segs` (each literal segment containing no token
start) followed by the token-free trailing literal `tail`. Each identifier is
a nonempty maximal run of `[A-Za-z_]` characters. -/
inductive Tokenization : List Char → List (List Char × List Char) → List Char → Prop
  | nil (l : List Char) (h : noTok l false = true) : Tokenization l [] l
  | cons (p ident s : List Char) (segs : List (List Char × List Char)) (tail : List Char)
      (hp : noTok p false = true)
      (hi : ident ≠ [])
      (ha : ident.all isIdentChar = true)
      (hs : identHead s = false)
      (ht : Tokenization s segs tail) :
      Tokenization (p ++ '@' :: (ident ++ s)) ((p, ident) :: segs) tail

/-- Reassemble the original template from its tokenization. -/
def renderIn : List (List Char × List Char) → List Char → List Char
  | [], tail => tail
  | (p, ident) :: segs, tail => p ++ '@' :: (ident ++ renderIn segs tail)

/-- The rewritten SQL: each literal segment is kept and the `i`-th token
occurrence (counting from `idx`) becomes the placeholder `'$' ++ i`. -/
def renderOut : List (List Char × List Char) → List Char → Nat → List Char
  | [], tail, _ => tail
  | (p, _) :: segs, tail, idx => p ++ placeholder idx ++ renderOut segs tail (idx + 1)

/-- The ordered value sequence: one entry per token occurrence, looked up by
the occurrence's identifier. -/
def valuesOf (params : Option (List (List Char × V))) (segs : List (List Char × List Char)) :
    List V :=
  segs.filterMap fun pr => lookupParam params pr.2

/-- Identifier of the first token occurrence (in scan order) that has no
entry in `params`, if any. -/
def firstMissing (params : Option (List (List Char × V))) :
    List (List Char × List Char) → Option (List Char)
  | [] => none
  | (_, ident) :: segs =>
    if (lookupParam params ident).isSome then firstMissing params segs else some ident

/-- Structured pool configuration fields relevant to this layer (the `pg`
`PoolConfig` object: connection fields, plus the connection string that the
driver itself can parse). -/
structure PgPoolConfig where
  connectionString : Option (List Char) := none
  host : Option (List Char) := none
  user : Option (List Char) := none
  password : Option (List Char) := none
  database : Option (List Char) := none
deriving DecidableEq

/-- The constructor argument `config: string | PoolConfig`. -/
inductive SlimConfig where
  | connectionString (s : List Char)
  | poolConfig (c : PgPoolConfig)
deriving DecidableEq

/-- Right-biased merge modelling the object spread `{ ...base, ...override }`:
fields present in `override` win. -/
def mergeConfig (base override : PgPoolConfig) : PgPoolConfig where
  connectionString := (override.connectionString).orElse fun _ => base.connectionString
  host := (override.host).orElse fun _ => base.host
  user := (override.user).orElse fun _ => base.user
  password := (override.password).orElse fun _ => base.password
  database := (override.database).orElse fun _ => base.database

/-- The effective `pg` pool options built by the `SlimNodePostgres`
constructor and by `connect`:
`{ ...otherPoolOptions, connectionString: string? config : undefined, ...(object? config : {}) }`.
A string config is handed to the driver pool as `connectionString`,
unparsed. -/
def slimPoolConfig (config : SlimConfig) (other : PgPoolConfig) : PgPoolConfig :=
  match config with
  | .connectionString s => { other with connectionString := some s }
  | .poolConfig c => mergeConfig { other with connectionString := none } c

/-- A driver pool handle, abstracted to the options it was opened with. -/
structure PgPool where
  options : PgPoolConfig
deriving DecidableEq

/-- The state of a `SlimNodePostgres` instance: the nullable `pool` field
plus the construction arguments retained for `connect`. -/
structure SlimNodePostgres where
  pool : Option PgPool
  config : SlimConfig
  otherPoolOptions : PgPoolConfig
deriving DecidableEq

/-- The `SlimNodePostgres` constructor: stores the config and immediately
opens a pool. -/
def SlimNodePostgres.construct (config : SlimConfig) (other : PgPoolConfig) :
    SlimNodePostgres where
  pool := some ⟨slimPoolConfig config other⟩
  config := config
  otherPoolOptions := other

/-- `hasOpenPool()`: `this.pool != null`. -/
def SlimNodePostgres.hasOpenPool (s : SlimNodePostgres) : Bool :=
  s.pool.isSome

/-- `connect()`: throws `PoolAlreadyExistsError` when a pool is open,
otherwise opens a new pool from the stored config. -/
def SlimNodePostgres.connect (s : SlimNodePostgres) : Except SlimError SlimNodePostgres :=
  match s.pool with
  | some _ => .error .poolAlreadyOpen
  | none => .ok { s with pool := some ⟨slimPoolConfig s.config s.otherPoolOptions⟩ }

/-- `close()`: ends the pool when open and sets the field to null in every
case. -/
def SlimNodePostgres.close (s : SlimNodePostgres) : SlimNodePostgres :=
  { s with pool := none }

/-- The available connection-string parser implementations. -/
inductive ParserKind where
  | postgresConnStringImpl
deriving DecidableEq

/-- `ConnectionStringParserStrategy.getParserStrategy`: prefix dispatch; the
only registered prefix is `mysql://`, anything else throws
`ConnectionStringParseError`. -/
def getParserStrategy (connectionString : List Char) : Except SlimError ParserKind :=
  if isPre ("mysql://".data) connectionString then .ok .postgresConnStringImpl
  else .error .connectionStringParse

/-- Connection fields produced by a connection-string parser. -/
structure ConnectionConfig where
  host : List Char
  user : List Char
  password : List Char
  database : List Char
deriving DecidableEq

/-- Modelled from the spec: `parseConnectionString` of the parser selected
by `getParserStrategy` (the file `MySQLConnectionStringParser.ts` is not
under `src/`); the spec treats it as a format-specific adapter that turns a
connection string into host/user/password/database fields, so it is kept
abstract as the `parse` argument below. `SlimNodePostgresPool`'s
constructor: a string config is parsed by the prefix-selected strategy into
structured fields before pool construction, an object config is passed to
the pool directly. -/
def SlimNodePostgresPool.construct (parse : List Char → ConnectionConfig)
    (config : SlimConfig) (other : PgPoolConfig) : Except SlimError PgPool :=
  match config with
  | .connectionString s =>
    (getParserStrategy s).map fun _ =>
      let connection := parse s
      ⟨{ other with
          connectionString := none
          host := some connection.host
          user := some connection.user
          password := some connection.password
          database := some connection.database }⟩
  | .poolConfig c => .ok ⟨c⟩

/-- `escapeIdentifier`: wrap in double quotes, doubling internal double
quotes (`identifier.replace(/"/g, '""')`). -/
def escapeIdentifier (identifier : List Char) : List Char :=
  '"' :: escDoubleQuotes identifier ++ ['"']
where
  escDoubleQuotes : List Char → List Char
    | [] => []
    | c :: rest => (if c = '"' then ['"', '"'] else [c]) ++ escDoubleQuotes rest

/-- `Array.prototype.join(', ')`. -/
def joinComma : List (List Char) → List Char
  | [] => []
  | [x] => x
  | x :: xs => x ++ ", ".data ++ joinComma xs

/-- The placeholder list `values.map((_, index) => dollar(index + 1))`. -/
def placeholdersList (n : Nat) : List (List Char) :=
  (List.range n).map fun i => placeholder (i + 1)

/-- The SQL text assembled by `insert`. -/
def insertSQL (tableName : List Char) (columns : List (List Char)) (nvalues : Nat) :
    List Char :=
  "INSERT INTO ".data ++ escapeIdentifier tableName ++ " (".data ++
    joinComma (columns.map escapeIdentifier) ++ ") VALUES (".data ++
    joinComma (placeholdersList nvalues) ++ ") RETURNING id".data

/-- One row of a driver result; only the `id` column is read by `insert`
(`result.rows[0].id`), absent when the row has no such column. -/
structure PgRow (V : Type) where
  id : Option V
deriving DecidableEq

/-- A driver query result: `rowCount` and `rows`. -/
structure PgQueryResult (V : Type) where
  rowCount : Nat
  rows : List (PgRow V)
deriving DecidableEq

/-- The `InsertResult` shape returned by `insert`. -/
structure InsertResult (V : Type) where
  affectedRows : Nat
  changedRows : Nat
  insertId : Option V
deriving DecidableEq

/-- `SlimNodePostgres.insert(tableName, columns, values)`: fails when the
column and value counts differ, otherwise issues the assembled INSERT
statement to the pool (modelled by the `driver` oracle mapping the issued
SQL and values to a result) and reshapes the driver result. -/
def SlimNodePostgres.insert (driver : List Char → List V → PgQueryResult V)
    (tableName : List Char) (columns : List (List Char)) (values : List V) :
    Except SlimError (InsertResult V) :=
  if columns.length ≠ values.length then .error .columnValueMismatch
  else
    let sql := insertSQL tableName columns values.length
    let result := driver sql values
    .ok
      { affectedRows := result.rowCount
        changedRows := result.rowCount
        insertId := match result.rows with | [] => none | r :: _ => r.id }

/-- Follows the spec's words for the insert contract (refinement target for
the code's `insertSQL`): `INSERT INTO <quoted-table> (<quoted-columns>)
VALUES (<positional-placeholders>) RETURNING id`, identifiers wrapped in
double quotes with internal double quotes doubled, one positional
placeholder per value numbered 1..n. -/
def specInsertStatement (tableName : List Char) (columns : List (List Char)) (n : Nat) :
    List Char :=
  "INSERT INTO ".data ++ specQuoted tableName ++ " (".data ++
    (List.intersperse (", ".data) (columns.map specQuoted)).flatten ++ ") VALUES (".data ++
    (List.intersperse (", ".data) ((List.range n).map fun i => '$' :: decChars (i + 1))).flatten ++
    ") RETURNING id".data
where
  specQuoted (ident : List Char) : List Char :=
    '"' :: (ident.flatMap fun c => if c = '"' then ['"', '"'] else [c]) ++ ['"']

/-- Decimal value of a digit string (proof-side inverse of `decChars`). -/
def valOf (l : List Char) : Nat :=
  l.foldl (fun a c => 10 * a + digitVal c) 0

theorem identHeadF_append (a b : List Char) (flag : Bool) :
    identHeadF (a ++ b) flag = identHeadF a (identHeadF b flag) := by
  cases a <;> simp [identHeadF]

theorem noTok_append (a b : List Char) (flag : Bool) :
    noTok (a ++ b) flag = (noTok a (identHeadF b flag) && noTok b flag) := by
  induction a with
  | nil => simp [noTok]
  | cons c rest ih =>
    simp [noTok, identHeadF_append, ih, Bool.and_assoc, List.append_eq]

theorem noTok_of_no_at (l : List Char) (flag : Bool) (h : '@' ∉ l) :
    noTok l flag = true := by
  induction l with
  | nil => rfl
  | cons c rest ih =>
    simp only [List.mem_cons, not_or] at h
    have hc : (c = '@') = False := by
      simp only [eq_iff_iff, iff_false]
      exact fun hc => h.1 (hc ▸ rfl)
    simp [noTok, hc, ih h.2]

theorem findMatch_cons_neg (c : Char) (rest : List Char)
    (h : (decide (c = '@') && identHeadF rest false) = false) :
    findMatch (c :: rest) = (findMatch rest).map fun pr => (c :: pr.1, pr.2.1, pr.2.2) := by
  simp only [findMatch]
  rw [h]
  simp

theorem findMatch_cons_pos (c : Char) (rest : List Char)
    (h : (decide (c = '@') && identHeadF rest false) = true) :
    findMatch (c :: rest) =
      some ([], rest.takeWhile isIdentChar, rest.dropWhile isIdentChar) := by
  simp only [findMatch]
  rw [h]
  simp

theorem findMatch_none_of_noTok (l : List Char) (h : noTok l false = true) :
    findMatch l = none := by
  induction l with
  | nil => rfl
  | cons c rest ih =>
    simp only [noTok, Bool.and_eq_true, Bool.not_eq_true'] at h
    rw [findMatch_cons_neg c rest h.1, ih h.2]
    rfl

theorem findMatch_append (a b : List Char) (h : noTok a (identHeadF b false) = true) :
    findMatch (a ++ b) = (findMatch b).map fun pr => (a ++ pr.1, pr.2.1, pr.2.2) := by
  induction a with
  | nil =>
    cases hb : findMatch b <;> simp [hb]
  | cons c rest ih =>
    simp only [noTok, Bool.and_eq_true, Bool.not_eq_true'] at h
    have hcond : (decide (c = '@') && identHeadF (rest ++ b) false) = false := by
      rw [identHeadF_append]; exact h.1
    rw [List.cons_append, findMatch_cons_neg c (rest ++ b) hcond, ih h.2, Option.map_map]
    cases findMatch b <;> simp [Function.comp]

theorem takeWhile_ident_append (i s : List Char) (ha : i.all isIdentChar = true)
    (hs : identHead s = false) : (i ++ s).takeWhile isIdentChar = i := by
  induction i with
  | nil =>
    cases s with
    | nil => rfl
    | cons c rest =>
      simp only [identHead, identHeadF] at hs
      simp [List.takeWhile_cons, hs]
  | cons c rest ih =>
    simp only [List.all_cons, Bool.and_eq_true] at ha
    simp [List.takeWhile_cons, ha.1, ih ha.2]

theorem dropWhile_ident_append (i s : List Char) (ha : i.all isIdentChar = true)
    (hs : identHead s = false) : (i ++ s).dropWhile isIdentChar = s := by
  induction i with
  | nil =>
    cases s with
    | nil => rfl
    | cons c rest =>
      simp only [identHead, identHeadF] at hs
      simp [List.dropWhile_cons, hs]
  | cons c rest ih =>
    simp only [List.all_cons, Bool.and_eq_true] at ha
    simp [List.dropWhile_cons, ha.1, ih ha.2]

theorem findMatch_token (i s : List Char) (hi : i ≠ []) (ha : i.all isIdentChar = true)
    (hs : identHead s = false) :
    findMatch ('@' :: (i ++ s)) = some ([], i, s) := by
  cases i with
  | nil => exact absurd rfl hi
  | cons c rest =>
    have hc : isIdentChar c = true := by
      simp only [List.all_cons, Bool.and_eq_true] at ha
      exact ha.1
    have hcond : (decide ('@' = '@') && identHeadF ((c :: rest) ++ s) false) = true := by
      simp [identHeadF, hc]
    rw [findMatch_cons_pos '@' ((c :: rest) ++ s) hcond,
      takeWhile_ident_append _ _ ha hs, dropWhile_ident_append _ _ ha hs]

theorem all_takeWhile_ident (p : Char → Bool) (l : List Char) :
    (l.takeWhile p).all p = true := by
  induction l with
  | nil => rfl
  | cons c rest ih =>
    by_cases hc : p c = true
    · simp [List.takeWhile_cons, hc, ih]
    · simp [List.takeWhile_cons, hc]

theorem isPre_takeWhile (p : Char → Bool) (l : List Char) :
    isPre (l.takeWhile p) l = true := by
  induction l with
  | nil => rfl
  | cons c rest ih =>
    by_cases hc : p c = true
    · simp [List.takeWhile_cons, hc, isPre, ih]
    · simp [List.takeWhile_cons, hc, isPre]

theorem drop_takeWhile_length (p : Char → Bool) (l : List Char) :
    l.drop (l.takeWhile p).length = l.dropWhile p := by
  induction l with
  | nil => rfl
  | cons c rest ih =>
    by_cases hc : p c = true
    · simp [List.takeWhile_cons, List.dropWhile_cons, hc, ih]
    · simp [List.takeWhile_cons, List.dropWhile_cons, hc]

theorem findMatch_some_ident (l P I S : List Char) (h : findMatch l = some (P, I, S)) :
    I ≠ [] ∧ I.all isIdentChar = true := by
  induction l generalizing P with
  | nil => simp [findMatch] at h
  | cons c rest ih =>
    by_cases hcond : (decide (c = '@') && identHeadF rest false) = true
    · rw [findMatch_cons_pos c rest hcond] at h
      simp only [Option.some.injEq, Prod.mk.injEq] at h
      obtain ⟨-, hI, -⟩ := h
      subst hI
      constructor
      · simp only [Bool.and_eq_true, decide_eq_true_eq] at hcond
        cases rest with
        | nil => simp [identHeadF] at hcond
        | cons b bs =>
          simp only [identHeadF] at hcond
          simp [List.takeWhile_cons, hcond.2]
      · exact all_takeWhile_ident isIdentChar rest
    · rw [findMatch_cons_neg c rest (by simpa using hcond)] at h
      cases hfm : findMatch rest with
      | none => rw [hfm] at h; exact Option.noConfusion h
      | some pr =>
        obtain ⟨pr1, pr2, pr3⟩ := pr
        rw [hfm] at h
        simp only [Option.map_some', Option.some.injEq, Prod.mk.injEq] at h
        obtain ⟨-, hI, hS⟩ := h
        subst hI hS
        exact ih pr1 hfm

theorem isPre_append_self (a b : List Char) : isPre a (a ++ b) = true := by
  induction a with
  | nil => rfl
  | cons c rest ih => simp [isPre, ih]

theorem replaceFirst_of_findMatch (l P I S r : List Char)
    (h : findMatch l = some (P, I, S)) :
    replaceFirst ('@' :: I) r l = P ++ r ++ S := by
  induction l generalizing P with
  | nil => simp [findMatch] at h
  | cons c rest ih =>
    by_cases hcond : (decide (c = '@') && identHeadF rest false) = true
    · rw [findMatch_cons_pos c rest hcond] at h
      simp only [Option.some.injEq, Prod.mk.injEq] at h
      obtain ⟨hP, hI, hS⟩ := h
      subst hP hI hS
      have hc : c = '@' := by
        simp only [Bool.and_eq_true, decide_eq_true_eq] at hcond
        exact hcond.1
      subst hc
      have hpre : isPre ('@' :: rest.takeWhile isIdentChar) ('@' :: rest) = true := by
        simp [isPre, isPre_takeWhile]
      rw [replaceFirst, if_pos hpre]
      simp only [List.length_cons, List.drop_succ_cons, List.nil_append]
      rw [drop_takeWhile_length]
    · rw [findMatch_cons_neg c rest (by simpa using hcond)] at h
      cases hfm : findMatch rest with
      | none => rw [hfm] at h; exact Option.noConfusion h
      | some pr =>
        obtain ⟨pr1, pr2, pr3⟩ := pr
        rw [hfm] at h
        simp only [Option.map_some', Option.some.injEq, Prod.mk.injEq] at h
        obtain ⟨hP, hI, hS⟩ := h
        subst hI hS
        have hnp : isPre ('@' :: pr2) (c :: rest) = false := by
          obtain ⟨hne, hall⟩ := findMatch_some_ident rest pr1 pr2 pr3 hfm
          cases hI0 : pr2 with
          | nil => exact absurd hI0 hne
          | cons i0 irest =>
            subst hI0
            have hi0 : isIdentChar i0 = true := by
              simp only [List.all_cons, Bool.and_eq_true] at hall
              exact hall.1
            by_contra hcontra
            simp only [Bool.not_eq_false] at hcontra
            simp only [isPre, Bool.and_eq_true, decide_eq_true_eq] at hcontra
            obtain ⟨hca, hrest⟩ := hcontra
            cases rest with
            | nil => simp [isPre] at hrest
            | cons b bs =>
              simp only [isPre, Bool.and_eq_true, decide_eq_true_eq] at hrest
              apply hcond
              simp only [Bool.and_eq_true, decide_eq_true_eq, identHeadF]
              exact ⟨hca.symm, hrest.1 ▸ hi0⟩
        rw [replaceFirst, if_neg (by simp [hnp]), ih pr1 hfm]
        subst hP
        simp

theorem digitChar_not_at (m : Nat) :
    digitChar m ≠ '@' ∧ isIdentChar (digitChar m) = false := by
  have h10 : m % 10 < 10 := Nat.mod_lt _ (by norm_num)
  have key : ∀ k, k < 10 →
      Char.ofNat (48 + k) ≠ '@' ∧ isIdentChar (Char.ofNat (48 + k)) = false := by decide
  exact key (m % 10) h10

theorem mem_decCharsAux (fuel n : Nat) (c : Char) (h : c ∈ decCharsAux fuel n) :
    c ≠ '@' ∧ isIdentChar c = false := by
  induction fuel generalizing n with
  | zero => simp [decCharsAux] at h
  | succ fuel ih =>
    simp only [decCharsAux] at h
    by_cases hn : n < 10
    · rw [if_pos hn] at h
      simp only [List.mem_singleton] at h
      subst h
      exact digitChar_not_at n
    · rw [if_neg hn] at h
      rw [List.mem_append] at h
      cases h with
      | inl h => exact ih _ h
      | inr h =>
        simp only [List.mem_singleton] at h
        subst h
        exact digitChar_not_at _

theorem noTok_placeholder (i : Nat) (flag : Bool) : noTok (placeholder i) flag = true := by
  apply noTok_of_no_at
  intro hmem
  simp only [placeholder, List.mem_cons] at hmem
  cases hmem with
  | inl h => exact absurd h (by decide)
  | inr h => exact (mem_decCharsAux _ _ _ h).1 rfl

theorem identHeadF_placeholder (i : Nat) (flag : Bool) :
    identHeadF (placeholder i) flag = false := by
  show isIdentChar '$' = false
  decide

theorem valOf_decCharsAux (fuel n : Nat) (h : n < fuel) :
    valOf (decCharsAux fuel n) = n := by
  induction fuel generalizing n with
  | zero => omega
  | succ fuel ih =>
    simp only [decCharsAux]
    by_cases hn : n < 10
    · rw [if_pos hn]
      have key : ∀ k, k < 10 → valOf [digitChar k] = k := by decide
      exact key n hn
    · rw [if_neg hn]
      have hd : n / 10 < fuel := by
        have h1 : n / 10 < n := Nat.div_lt_self (by omega) (by norm_num)
        omega
      rw [valOf, List.foldl_append]
      have key : ∀ (a : Nat) (k : Nat), k < 10 →
          List.foldl (fun a c => 10 * a + digitVal c) a [digitChar k] = 10 * a + k := by
        intro a k hk
        simp only [List.foldl_cons, List.foldl_nil]
        congr 1
        have hv : ∀ j, j < 10 → digitVal (digitChar j) = j := by decide
        exact hv k hk
      rw [key _ _ (Nat.mod_lt _ (by norm_num))]
      have := ih (n / 10) hd
      rw [valOf] at this
      rw [this]
      omega

theorem placeholder_inj (m n : Nat) (h : placeholder m = placeholder n) : m = n := by
  simp only [placeholder, List.cons.injEq, true_and] at h
  have hm := valOf_decCharsAux (m + 1) m (Nat.lt_succ_self m)
  have hn := valOf_decCharsAux (n + 1) n (Nat.lt_succ_self n)
  rw [← hm, ← hn]
  simp only [decChars] at h
  rw [h]

theorem valuesOf_nil (params : Option (List (List Char × V))) :
    valuesOf params [] = [] := rfl

theorem valuesOf_cons_some (params : Option (List (List Char × V)))
    (p i : List Char) (segs : List (List Char × List Char)) (v : V)
    (h : lookupParam params i = some v) :
    valuesOf params ((p, i) :: segs) = v :: valuesOf params segs := by
  simp [valuesOf, List.filterMap_cons, h]

theorem valuesOf_length (params : Option (List (List Char × V)))
    (segs : List (List Char × List Char))
    (h : ∀ pr ∈ segs, (lookupParam params pr.2).isSome = true) :
    (valuesOf params segs).length = segs.length := by
  induction segs with
  | nil => rfl
  | cons pr segs ih =>
    obtain ⟨p, i⟩ := pr
    obtain ⟨v, hv⟩ := Option.isSome_iff_exists.mp (h (p, i) (List.mem_cons_self _ _))
    rw [valuesOf_cons_some params p i segs v hv]
    simp [ih fun pr hpr => h pr (List.mem_cons_of_mem _ hpr)]

theorem valuesOf_get? (params : Option (List (List Char × V)))
    (segs : List (List Char × List Char))
    (h : ∀ pr ∈ segs, (lookupParam params pr.2).isSome = true) (i : Nat) :
    (valuesOf params segs)[i]? = segs[i]?.bind fun pr => lookupParam params pr.2 := by
  induction segs generalizing i with
  | nil => simp [valuesOf]
  | cons pr segs ih =>
    obtain ⟨p, nm⟩ := pr
    obtain ⟨v, hv⟩ := Option.isSome_iff_exists.mp (h (p, nm) (List.mem_cons_self _ _))
    rw [valuesOf_cons_some params p nm segs v hv]
    cases i with
    | zero => simp [hv]
    | succ i => simpa using ih (fun pr hpr => h pr (List.mem_cons_of_mem _ hpr)) i

theorem firstMissing_none (params : Option (List (List Char × V)))
    (segs : List (List Char × List Char))
    (h : ∀ pr ∈ segs, (lookupParam params pr.2).isSome = true) :
    firstMissing params segs = none := by
  induction segs with
  | nil => rfl
  | cons pr segs ih =>
    obtain ⟨p, i⟩ := pr
    simp [firstMissing, h (p, i) (List.mem_cons_self _ _),
      ih fun pr hpr => h pr (List.mem_cons_of_mem _ hpr)]

theorem firstMissing_split (params : Option (List (List Char × V)))
    (A : List (List Char × List Char)) (p0 i0 : List Char)
    (B : List (List Char × List Char))
    (hA : ∀ pr ∈ A, (lookupParam params pr.2).isSome = true)
    (h0 : lookupParam params i0 = none) :
    firstMissing params (A ++ (p0, i0) :: B) = some i0 := by
  induction A with
  | nil => simp [firstMissing, h0]
  | cons pr A ih =>
    obtain ⟨p, i⟩ := pr
    simp [firstMissing, hA (p, i) (List.mem_cons_self _ _),
      ih fun pr hpr => hA pr (List.mem_cons_of_mem _ hpr)]

theorem Tokenization.length_le (l : List Char) (segs : List (List Char × List Char))
    (tail : List Char) (ht : Tokenization l segs tail) : segs.length ≤ l.length := by
  induction ht with
  | nil l h => simp
  | cons p ident s segs tail hp hi ha hs ht ih =>
    simp only [List.length_cons, List.length_append]
    omega

theorem Tokenization.renderIn_eq (l : List Char) (segs : List (List Char × List Char))
    (tail : List Char) (ht : Tokenization l segs tail) : l = renderIn segs tail := by
  induction ht with
  | nil l h => rfl
  | cons p ident s segs tail hp hi ha hs ht ih => simp [renderIn, ← ih]

theorem prepareLoopF_spec (params : Option (List (List Char × V)))
    (s : List Char) (segs : List (List Char × List Char)) (tail : List Char)
    (ht : Tokenization s segs tail) :
    ∀ pre : List Char, noTok pre (identHead s) = true →
    ∀ (idx : Nat) (acc : List V) (fuel : Nat), segs.length < fuel →
    prepareLoopF params fuel (pre ++ s) idx acc =
      match firstMissing params segs with
      | some i0 => .error (.missingParameter ('@' :: i0))
      | none => .ok (pre ++ renderOut segs tail idx, acc ++ valuesOf params segs) := by
  induction ht with
  | nil l hl =>
    intro pre hpre idx acc fuel hfuel
    cases fuel with
    | zero => omega
    | succ fuel =>
      have hfm : findMatch (pre ++ l) = none := by
        apply findMatch_none_of_noTok
        rw [noTok_append, Bool.and_eq_true]
        exact ⟨hpre, hl⟩
      simp [prepareLoopF, hfm, firstMissing, renderOut, valuesOf]
  | cons p ident s' segs' tail hp hi ha hs ht ih =>
    intro pre hpre idx acc fuel hfuel
    cases fuel with
    | zero => simp at hfuel
    | succ fuel =>
      have hat : identHeadF ('@' :: (ident ++ s')) false = false := by
        show isIdentChar '@' = false
        decide
      have hflag : identHead (p ++ '@' :: (ident ++ s')) = identHeadF p false := by
        rw [identHead, identHeadF_append, hat]
      have hprep : noTok (pre ++ p) false = true := by
        rw [noTok_append, Bool.and_eq_true]
        rw [hflag] at hpre
        exact ⟨hpre, hp⟩
      have hfm : findMatch (pre ++ (p ++ '@' :: (ident ++ s'))) =
          some (pre ++ p, ident, s') := by
        rw [← List.append_assoc]
        rw [findMatch_append (pre ++ p) ('@' :: (ident ++ s')) (by rw [hat]; exact hprep)]
        rw [findMatch_token ident s' hi ha hs]
        simp
      have hrepl : replaceFirst ('@' :: ident) (placeholder idx)
          (pre ++ (p ++ '@' :: (ident ++ s'))) = ((pre ++ p) ++ placeholder idx) ++ s' :=
        replaceFirst_of_findMatch _ _ _ _ _ hfm
      cases hlk : lookupParam params ident with
      | none =>
        have hstep : prepareLoopF params (fuel + 1) (pre ++ (p ++ '@' :: (ident ++ s'))) idx acc
            = .error (.missingParameter ('@' :: ident)) := by
          simp only [prepareLoopF, hfm, hlk]
        rw [hstep]
        simp [firstMissing, hlk]
      | some v =>
        have hstep : prepareLoopF params (fuel + 1) (pre ++ (p ++ '@' :: (ident ++ s'))) idx acc
            = prepareLoopF params fuel (((pre ++ p) ++ placeholder idx) ++ s') (idx + 1)
                (acc ++ [v]) := by
          simp only [prepareLoopF, hfm, hlk]
          rw [hrepl]
        rw [hstep]
        have hpre' : noTok ((pre ++ p) ++ placeholder idx) (identHead s') = true := by
          rw [noTok_append, Bool.and_eq_true]
          refine ⟨?_, noTok_placeholder idx (identHead s')⟩
          rw [identHeadF_placeholder]
          exact hprep
        have hfuel' : segs'.length < fuel := by
          simp only [List.length_cons] at hfuel
          omega
        rw [ih ((pre ++ p) ++ placeholder idx) hpre' (idx + 1) (acc ++ [v]) fuel hfuel']
        have hfm1 : firstMissing params (((p, ident)) :: segs') = firstMissing params segs' := by
          simp [firstMissing, hlk]
        rw [hfm1]
        cases hFM : firstMissing params segs' with
        | some i0 => rfl
        | none =>
          simp only [renderOut, valuesOf_cons_some params p ident segs' v hlk]
          simp [List.append_assoc]

theorem prepare_ok_of_covered (params : Option (List (List Char × V)))
    (sql : List Char) (segs : List (List Char × List Char)) (tail : List Char)
    (ht : Tokenization sql segs tail)
    (hcov : ∀ pr ∈ segs, (lookupParam params pr.2).isSome = true) :
    SlimNodePostgres.prepare sql params = .ok (renderOut segs tail 1, valuesOf params segs) := by
  have hfuel : segs.length < sql.length + 1 :=
    Nat.lt_succ_of_le (Tokenization.length_le sql segs tail ht)
  have hmain := prepareLoopF_spec params sql segs tail ht [] rfl 1 [] (sql.length + 1) hfuel
  rw [List.nil_append] at hmain
  rw [SlimNodePostgres.prepare, hmain, firstMissing_none params segs hcov]
  simp

/-- C1: for a template whose token occurrences are all covered by the named
parameters, `prepare` succeeds; the rewritten SQL is the template's literal
segments with the `i`-th token occurrence (1-based, in order of appearance)
replaced by the placeholder built from counter `i` (`renderOut segs tail 1`),
and the returned value sequence has one entry per token occurrence, its
`i`-th element being the parameter value of the `i`-th occurrence's
identifier. -/
theorem prepare_rewrites_every_occurrence (params : Option (List (List Char × V)))
    (sql : List Char) (segs : List (List Char × List Char)) (tail : List Char)
    (ht : Tokenization sql segs tail)
    (hcov : ∀ pr ∈ segs, (lookupParam params pr.2).isSome = true) :
    SlimNodePostgres.prepare sql params =
      .ok (renderOut segs tail 1, valuesOf params segs) ∧
    (valuesOf params segs).length = segs.length ∧
    ∀ i : Nat, (valuesOf params segs)[i]? = segs[i]?.bind fun pr => lookupParam params pr.2 :=
  ⟨prepare_ok_of_covered params sql segs tail ht hcov,
    valuesOf_length params segs hcov,
    fun i => valuesOf_get? params segs hcov i⟩

/-- C1 witness at the template `SELECT @a, @b` with parameters a=3, b=4. -/
theorem prepare_rewrites_every_occurrence_witness :
    SlimNodePostgres.prepare "SELECT @a, @b".data
        (some [("a".data, (3 : Nat)), ("b".data, 4)]) =
      .ok ("SELECT $1, $2".data, [3, 4]) := by
  have ht : Tokenization "SELECT @a, @b".data
      [("SELECT ".data, "a".data), (", ".data, "b".data)] [] := by
    have h2 : Tokenization (", ".data ++ '@' :: ("b".data ++ ([] : List Char)))
        [(", ".data, "b".data)] [] :=
      Tokenization.cons _ _ _ _ _ (by decide) (by decide) (by decide) (by decide)
        (Tokenization.nil [] (by decide))
    have h1 : Tokenization
        ("SELECT ".data ++ '@' :: ("a".data ++ (", ".data ++ '@' :: ("b".data ++ []))))
        [("SELECT ".data, "a".data), (", ".data, "b".data)] [] :=
      Tokenization.cons _ _ _ _ _ (by decide) (by decide) (by decide) (by decide) h2
    exact h1
  have h := prepare_rewrites_every_occurrence (some [("a".data, (3 : Nat)), ("b".data, 4)])
    "SELECT @a, @b".data _ _ ht (by decide)
  exact h.1.trans rfl

/-- C2: if the template's scan encounters a token occurrence whose
identifier has no entry in the parameters (all earlier occurrences being
covered), `prepare` fails with the missing-parameter error naming that
offending token, and returns no rewritten output at all. -/
theorem prepare_missing_parameter_fails (params : Option (List (List Char × V)))
    (sql : List Char) (segs A B : List (List Char × List Char))
    (p0 i0 tail : List Char)
    (ht : Tokenization sql segs tail)
    (hsplit : segs = A ++ (p0, i0) :: B)
    (hA : ∀ pr ∈ A, (lookupParam params pr.2).isSome = true)
    (h0 : lookupParam params i0 = none) :
    SlimNodePostgres.prepare sql params = .error (.missingParameter ('@' :: i0)) := by
  have hfuel : segs.length < sql.length + 1 :=
    Nat.lt_succ_of_le (Tokenization.length_le sql segs tail ht)
  have hmain := prepareLoopF_spec params sql segs tail ht [] rfl 1 [] (sql.length + 1) hfuel
  rw [List.nil_append] at hmain
  rw [SlimNodePostgres.prepare, hmain, hsplit, firstMissing_split params A p0 i0 B hA h0]

/-- C2 witness: template `WHERE a = @a AND b = @b` with only `a` supplied
fails naming `@b`. -/
theorem prepare_missing_parameter_fails_witness :
    SlimNodePostgres.prepare "WHERE a = @a AND b = @b".data (some [("a".data, (1 : Nat))]) =
      .error (.missingParameter ('@' :: "b".data)) := by
  have ht : Tokenization "WHERE a = @a AND b = @b".data
      [("WHERE a = ".data, "a".data), (" AND b = ".data, "b".data)] [] := by
    have h2 : Tokenization (" AND b = ".data ++ '@' :: ("b".data ++ ([] : List Char)))
        [(" AND b = ".data, "b".data)] [] :=
      Tokenization.cons _ _ _ _ _ (by decide) (by decide) (by decide) (by decide)
        (Tokenization.nil [] (by decide))
    have h1 : Tokenization
        ("WHERE a = ".data ++ '@' :: ("a".data ++ (" AND b = ".data ++ '@' :: ("b".data ++ []))))
        [("WHERE a = ".data, "a".data), (" AND b = ".data, "b".data)] [] :=
      Tokenization.cons _ _ _ _ _ (by decide) (by decide) (by decide) (by decide) h2
    exact h1
  exact prepare_missing_parameter_fails (some [("a".data, (1 : Nat))])
    "WHERE a = @a AND b = @b".data _ [("WHERE a = ".data, "a".data)] []
    " AND b = ".data "b".data [] ht rfl (by decide) (by decide)

/-- C10: on success the output SQL is the input template rewritten in
place: the template is exactly its literal segments interleaved with its
token occurrences (`renderIn`), and the output is the same literal segments
in the same order interleaved with the positional placeholders
(`renderOut`) — nothing else inserted or removed. -/
theorem prepare_rewrites_in_place (params : Option (List (List Char × V)))
    (sql : List Char) (segs : List (List Char × List Char)) (tail : List Char)
    (ht : Tokenization sql segs tail)
    (hcov : ∀ pr ∈ segs, (lookupParam params pr.2).isSome = true) :
    sql = renderIn segs tail ∧
    SlimNodePostgres.prepare sql params = .ok (renderOut segs tail 1, valuesOf params segs) :=
  ⟨Tokenization.renderIn_eq sql segs tail ht, prepare_ok_of_covered params sql segs tail ht hcov⟩

/-- C10 witness at the template `a = @a or b = @a` with parameter a=9. -/
theorem prepare_rewrites_in_place_witness :
    "a = @a or b = @a".data =
      renderIn [("a = ".data, "a".data), (" or b = ".data, "a".data)] [] ∧
    SlimNodePostgres.prepare "a = @a or b = @a".data (some [("a".data, (9 : Nat))]) =
      .ok ("a = $1 or b = $2".data, [9, 9]) := by
  have ht : Tokenization "a = @a or b = @a".data
      [("a = ".data, "a".data), (" or b = ".data, "a".data)] [] := by
    have h2 : Tokenization (" or b = ".data ++ '@' :: ("a".data ++ ([] : List Char)))
        [(" or b = ".data, "a".data)] [] :=
      Tokenization.cons _ _ _ _ _ (by decide) (by decide) (by decide) (by decide)
        (Tokenization.nil [] (by decide))
    have h1 : Tokenization
        ("a = ".data ++ '@' :: ("a".data ++ (" or b = ".data ++ '@' :: ("a".data ++ []))))
        [("a = ".data, "a".data), (" or b = ".data, "a".data)] [] :=
      Tokenization.cons _ _ _ _ _ (by decide) (by decide) (by decide) (by decide) h2
    exact h1
  have h := prepare_rewrites_in_place (some [("a".data, (9 : Nat))]) "a = @a or b = @a".data
    _ _ ht (by decide)
  exact ⟨h.1, h.2.trans rfl⟩

/-- C4: when two occurrences `j < k` share the same identifier and it is
covered, both consume their own positional slot: the value sequence still
has one entry per occurrence, positions `j` and `k` both hold that
parameter's value, and the placeholders written for the two occurrences
(counters `j+1` and `k+1`) are distinct strings — no slot is reused. -/
theorem prepare_repeated_token_two_slots (params : Option (List (List Char × V)))
    (sql : List Char) (segs : List (List Char × List Char)) (tail : List Char)
    (j k : Nat) (name : List Char)
    (ht : Tokenization sql segs tail)
    (hcov : ∀ pr ∈ segs, (lookupParam params pr.2).isSome = true)
    (hjk : j < k)
    (hj_name : (segs[j]?).map Prod.snd = some name)
    (hk_name : (segs[k]?).map Prod.snd = some name) :
    SlimNodePostgres.prepare sql params =
      .ok (renderOut segs tail 1, valuesOf params segs) ∧
    (valuesOf params segs).length = segs.length ∧
    (valuesOf params segs)[j]? = lookupParam params name ∧
    (valuesOf params segs)[k]? = lookupParam params name ∧
    placeholder (j + 1) ≠ placeholder (k + 1) := by
  refine ⟨prepare_ok_of_covered params sql segs tail ht hcov,
    valuesOf_length params segs hcov, ?_, ?_, ?_⟩
  · obtain ⟨pr, hpr, hpr2⟩ := Option.map_eq_some'.mp hj_name
    rw [valuesOf_get? params segs hcov j, hpr]
    simp [hpr2]
  · obtain ⟨pr, hpr, hpr2⟩ := Option.map_eq_some'.mp hk_name
    rw [valuesOf_get? params segs hcov k, hpr]
    simp [hpr2]
  · intro hph
    have := placeholder_inj (j + 1) (k + 1) hph
    omega

/-- C4 witness: `@id` appearing twice with id=5 yields `$1` and `$2` and
the value 5 twice. -/
theorem prepare_repeated_token_two_slots_witness :
    SlimNodePostgres.prepare "@id = @id".data (some [("id".data, (5 : Nat))]) =
      .ok ("$1 = $2".data, [5, 5]) ∧ placeholder 1 ≠ placeholder 2 := by
  have ht : Tokenization "@id = @id".data [([], "id".data), (" = ".data, "id".data)] [] := by
    have h2 : Tokenization (" = ".data ++ '@' :: ("id".data ++ ([] : List Char)))
        [(" = ".data, "id".data)] [] :=
      Tokenization.cons _ _ _ _ _ (by decide) (by decide) (by decide) (by decide)
        (Tokenization.nil [] (by decide))
    have h1 : Tokenization (([] : List Char) ++ '@' :: ("id".data ++ (" = ".data ++ '@' :: ("id".data ++ []))))
        [([], "id".data), (" = ".data, "id".data)] [] :=
      Tokenization.cons _ _ _ _ _ (by decide) (by decide) (by decide) (by decide) h2
    exact h1
  have h := prepare_repeated_token_two_slots (some [("id".data, (5 : Nat))]) "@id = @id".data
    _ _ 0 1 "id".data ht (by decide) (by decide) (by decide) (by decide)
  exact ⟨h.1.trans rfl, h.2.2.2.2⟩

/-- C5 counterexample: on the token-free template `SELECT 1` the facade's
`prepare` returns the empty value list itself — it is
`PostgresPreparedStatement.prepare`, not the facade, that converts the
empty sequence into a null marker, contradicting the claim's assertion
that the facade returns a null/empty marker rather than an empty list. -/
theorem prepare_empty_values_counterexample :
    SlimNodePostgres.prepare "SELECT 1".data (some [("x".data, (0 : Nat))]) =
      .ok ("SELECT 1".data, ([] : List Nat)) ∧
    PostgresPreparedStatement.prepare "SELECT 1".data [("x".data, (0 : Nat))] =
      .ok ("SELECT 1".data, (none : Option (List Nat))) :=
  ⟨rfl, rfl⟩

/-- C5 (amended): for a template with zero tokens, both prepare variants
return the template unchanged regardless of the parameters; the facade's
`prepare` returns the empty list itself, while
`PostgresPreparedStatement.prepare` replaces the empty sequence by a null
marker. -/
theorem prepare_no_tokens_identity (params : Option (List (List Char × V)))
    (ps : List (List Char × V)) (sql : List Char) (h : noTok sql false = true) :
    SlimNodePostgres.prepare sql params = .ok (sql, ([] : List V)) ∧
    PostgresPreparedStatement.prepare sql ps = .ok (sql, (none : Option (List V))) := by
  have hfm : findMatch sql = none := findMatch_none_of_noTok sql h
  constructor
  · rw [SlimNodePostgres.prepare]
    simp [prepareLoopF, hfm]
  · rw [PostgresPreparedStatement.prepare]
    simp [prepareLoopF, hfm]

/-- C5 (amended) witness at the token-free template `DELETE FROM t`. -/
theorem prepare_no_tokens_identity_witness :
    SlimNodePostgres.prepare "DELETE FROM t".data (some [("y".data, (2 : Nat))]) =
      .ok ("DELETE FROM t".data, ([] : List Nat)) ∧
    PostgresPreparedStatement.prepare "DELETE FROM t".data [("y".data, (2 : Nat))] =
      .ok ("DELETE FROM t".data, (none : Option (List Nat))) :=
  prepare_no_tokens_identity (some [("y".data, 2)]) [("y".data, 2)] "DELETE FROM t".data
    (by decide)

/-- C3: the claimed validity invariant fails on the code. In the template
`SELECT @a1` the token identifier is cut short by the digit, the scan
matches `@a`, and the rewrite glues the placeholder `$1` onto the literal
`1` that follows, producing `SELECT $11`: the rewritten SQL's one
placeholder denotes position 11 while the value sequence has a single
element, so the output is not a valid positional-parameter query for the
produced values. -/
theorem prepare_digit_adjacent_token_out_of_range :
    SlimNodePostgres.prepare "SELECT @a1".data (some [("a".data, (7 : Nat))]) =
      .ok ("SELECT $11".data, [7]) ∧
    "SELECT $11".data = "SELECT ".data ++ placeholder 11 ∧
    ([(7 : Nat)]).length < 11 :=
  ⟨rfl, rfl, by decide⟩

/-- C6 counterexample: with the connection string
`postgres://user:pw@localhost/db` no parser strategy matches the prefix
(`getParserStrategy` fails), yet constructing the `SlimNodePostgres` facade
from that string succeeds and performs no parsing at all — the string is
handed to the driver pool verbatim as `connectionString`. This contradicts
the claim that construction from a connection string parses it and fails
with `ConnectionStringParseError` whenever no parser matches. -/
theorem connection_string_unparsed_counterexample :
    getParserStrategy "postgres://user:pw@localhost/db".data =
      .error .connectionStringParse ∧
    SlimNodePostgres.construct
        (.connectionString "postgres://user:pw@localhost/db".data) {} =
      { pool := some ⟨{ connectionString := some "postgres://user:pw@localhost/db".data }⟩,
        config := .connectionString "postgres://user:pw@localhost/db".data,
        otherPoolOptions := {} } :=
  ⟨rfl, rfl⟩

/-- C6 (amended): only the `SlimNodePostgresPool` class parses a
connection-string config: its constructor selects the parser by prefix
matching (the sole registered prefix being `mysql://`) and fails with
`ConnectionStringParseError` when no parser matches, building the pool from
the parsed host/user/password/database fields otherwise. The
`SlimNodePostgres` facade instead passes the connection string to the
driver pool unparsed and its construction never raises
`ConnectionStringParseError`. -/
theorem connection_string_parsing_split (parse : List Char → ConnectionConfig)
    (s : List Char) (other : PgPoolConfig) :
    (isPre "mysql://".data s = false →
      SlimNodePostgresPool.construct parse (.connectionString s) other =
        .error .connectionStringParse) ∧
    (isPre "mysql://".data s = true →
      SlimNodePostgresPool.construct parse (.connectionString s) other =
        .ok ⟨{ other with
            connectionString := none
            host := some (parse s).host
            user := some (parse s).user
            password := some (parse s).password
            database := some (parse s).database }⟩) ∧
    SlimNodePostgres.construct (.connectionString s) other =
      { pool := some ⟨{ other with connectionString := some s }⟩,
        config := .connectionString s,
        otherPoolOptions := other } := by
  refine ⟨fun h => ?_, fun h => ?_, rfl⟩
  · simp [SlimNodePostgresPool.construct, getParserStrategy, h, Except.map]
  · simp [SlimNodePostgresPool.construct, getParserStrategy, h, Except.map]

/-- C6 (amended) witness: the pool class rejects a `postgres://` string and
accepts a `mysql://` one. -/
theorem connection_string_parsing_split_witness :
    SlimNodePostgresPool.construct (fun _ => ⟨"h".data, "u".data, "pw".data, "d".data⟩)
        (.connectionString "postgres://h/d".data) {} = .error .connectionStringParse ∧
    SlimNodePostgresPool.construct (fun _ => ⟨"h".data, "u".data, "pw".data, "d".data⟩)
        (.connectionString "mysql://h/d".data) {} =
      .ok ⟨{ connectionString := none, host := some "h".data, user := some "u".data,
             password := some "pw".data, database := some "d".data }⟩ := by
  constructor
  · exact (connection_string_parsing_split
      (fun _ => ⟨"h".data, "u".data, "pw".data, "d".data⟩)
      "postgres://h/d".data {}).1 (by decide)
  · exact ((connection_string_parsing_split
      (fun _ => ⟨"h".data, "u".data, "pw".data, "d".data⟩)
      "mysql://h/d".data {}).2.1 (by decide)).trans rfl

/-- C7: the facade's pool state machine: construction opens a pool
immediately; after `close()` no pool is open; `connect()` after a `close()`
succeeds and opens a pool; `connect()` while a pool is open fails with the
pool-already-open error (the `Except.error` result carries no new state, so
the existing pool is never replaced); and `close()` while already closed is
a no-op. -/
theorem pool_state_machine (cfg : SlimConfig) (other : PgPoolConfig)
    (s : SlimNodePostgres) :
    (SlimNodePostgres.construct cfg other).hasOpenPool = true ∧
    s.close.hasOpenPool = false ∧
    (∃ s2, s.close.connect = .ok s2 ∧ s2.hasOpenPool = true) ∧
    (s.hasOpenPool = true → s.connect = .error .poolAlreadyOpen) ∧
    (s.hasOpenPool = false → s.close = s) := by
  refine ⟨rfl, rfl, ⟨_, rfl, rfl⟩, fun h => ?_, fun h => ?_⟩
  · obtain ⟨pl, hpl⟩ := Option.isSome_iff_exists.mp h
    rw [SlimNodePostgres.connect, hpl]
  · have hnone : s.pool = none := by
      cases hp : s.pool with
      | none => rfl
      | some x => rw [SlimNodePostgres.hasOpenPool, hp] at h; simp at h
    cases s
    simp_all [SlimNodePostgres.close]

/-- C7 witness: a freshly constructed facade has an open pool, a second
`connect()` fails, after `close()` the pool is gone and a further `close()`
is a no-op, and `connect()` then reopens a pool. -/
theorem pool_state_machine_witness :
    (SlimNodePostgres.construct (.connectionString "mysql://h".data) {}).hasOpenPool = true ∧
    (SlimNodePostgres.construct (.connectionString "mysql://h".data) {}).connect =
      .error .poolAlreadyOpen ∧
    (SlimNodePostgres.construct (.connectionString "mysql://h".data) {}).close.hasOpenPool
      = false ∧
    (SlimNodePostgres.construct (.connectionString "mysql://h".data) {}).close.close =
      (SlimNodePostgres.construct (.connectionString "mysql://h".data) {}).close ∧
    (∃ s2, (SlimNodePostgres.construct
        (.connectionString "mysql://h".data) {}).close.connect = .ok s2 ∧
      s2.hasOpenPool = true) := by
  have h := pool_state_machine (.connectionString "mysql://h".data) {}
    (SlimNodePostgres.construct (.connectionString "mysql://h".data) {})
  have h2 := pool_state_machine (.connectionString "mysql://h".data) {}
    (SlimNodePostgres.construct (.connectionString "mysql://h".data) {}).close
  exact ⟨h.1, h.2.2.2.1 rfl, h.2.1, h2.2.2.2.2 rfl, h.2.2.1⟩

theorem escDoubleQuotes_eq_flatMap (l : List Char) :
    escapeIdentifier.escDoubleQuotes l =
      l.flatMap fun c => if c = '"' then ['"', '"'] else [c] := by
  induction l with
  | nil => rfl
  | cons c rest ih => simp [escapeIdentifier.escDoubleQuotes, ih]

theorem joinComma_eq_intersperse (xs : List (List Char)) :
    joinComma xs = (List.intersperse (", ".data) xs).flatten := by
  induction xs with
  | nil => rfl
  | cons x xs ih =>
    cases xs with
    | nil => simp [joinComma]
    | cons y ys =>
      rw [joinComma]
      rw [List.intersperse_cons_cons]
      simp only [List.flatten_cons]
      rw [ih, List.append_assoc]
      simp

/-- C8: with matching column/value counts, `insert` issues exactly the
statement described by the spec — `INSERT INTO <quoted-table>
(<quoted-columns>) VALUES ($1, ..., $n) RETURNING id` with identifiers
wrapped in double quotes and internal double quotes doubled — and returns
an `InsertResult` whose `insertId` is the `id` column of the first returned
row, or null when the statement returned no row. -/
theorem insert_builds_spec_statement (driver : List Char → List V → PgQueryResult V)
    (tableName : List Char) (columns : List (List Char)) (values : List V)
    (h : columns.length = values.length) :
    SlimNodePostgres.insert driver tableName columns values =
      .ok { affectedRows := (driver (insertSQL tableName columns values.length) values).rowCount
            changedRows := (driver (insertSQL tableName columns values.length) values).rowCount
            insertId :=
              match (driver (insertSQL tableName columns values.length) values).rows with
              | [] => none
              | r :: _ => r.id } ∧
    insertSQL tableName columns values.length =
      specInsertStatement tableName columns values.length := by
  constructor
  · rw [SlimNodePostgres.insert, if_neg (by omega)]
  · rw [insertSQL, specInsertStatement]
    have hq : ∀ l : List Char, escapeIdentifier l = specInsertStatement.specQuoted l := by
      intro l
      rw [escapeIdentifier, specInsertStatement.specQuoted, escDoubleQuotes_eq_flatMap]
    have hp : placeholdersList values.length =
        (List.range values.length).map fun i => '$' :: decChars (i + 1) := rfl
    rw [joinComma_eq_intersperse, joinComma_eq_intersperse, hq, hp]
    have hcols : columns.map escapeIdentifier =
        columns.map specInsertStatement.specQuoted :=
      List.map_congr_left fun x _ => hq x
    rw [hcols]

/-- C8 witness: inserting two columns into table `t` with a driver
returning one row with id 42. -/
theorem insert_builds_spec_statement_witness :
    SlimNodePostgres.insert (fun _ _ => ⟨1, [⟨some (42 : Nat)⟩]⟩) "t".data
        ["a".data, "b".data] [(7 : Nat), 8] =
      .ok ⟨1, 1, some 42⟩ ∧
    insertSQL "t".data ["a".data, "b".data] 2 =
      specInsertStatement "t".data ["a".data, "b".data] 2 := by
  have h := insert_builds_spec_statement (fun _ _ => ⟨1, [⟨some (42 : Nat)⟩]⟩) "t".data
    ["a".data, "b".data] [(7 : Nat), 8] (by decide)
  exact ⟨h.1.trans rfl, h.2⟩

/-- C9: when the column and value counts differ, `insert` fails with the
column/value-mismatch error uniformly in the driver oracle: the error is
produced before the driver function is ever consulted, so no query is
issued. -/
theorem insert_mismatch_no_query (driver : List Char → List V → PgQueryResult V)
    (tableName : List Char) (columns : List (List Char)) (values : List V)
    (h : columns.length ≠ values.length) :
    SlimNodePostgres.insert driver tableName columns values = .error .columnValueMismatch := by
  rw [SlimNodePostgres.insert, if_pos h]

/-- C9 witness: two columns and one value. -/
theorem insert_mismatch_no_query_witness :
    SlimNodePostgres.insert (fun _ _ => ⟨0, []⟩) "t".data ["c1".data, "c2".data]
      [(1 : Nat)] = .error .columnValueMismatch :=
  insert_mismatch_no_query (fun _ _ => ⟨0, []⟩) "t".data ["c1".data, "c2".data] [(1 : Nat)]
    (by decide)
